import Mathlib

/-!
Verification of the region-driven station map screen (Fynd-fuel).

This file shallowly embeds the logic of `src/app/(tabs)/home.tsx` and
`src/app/(tabs)/addStation.tsx`: the station-set merge performed after a
backend fetch, the debounced region fetch controller, the route-bounds
linear scan, the trip-mode transitions, the fetch error path, the station
name filter, and the distance/duration formatters.  JavaScript numbers are
modelled by `Rat` (no rounding occurs in the modelled comparisons), a JS
`Map` keyed by `station.id` is modelled by a list of stations on which
`set` overwrites in place or appends, and fallible operations return
`Except`/`Option`.
-/

namespace FyndFuel

/-- The `Station` interface of `home.tsx` (lines 27–35). -/
structure Station where
  id : Int
  name : String
  latitude : Rat
  longitude : Rat
  address : Option String := none
  price : Option Rat := none
  fuel_type : Option String := none
  deriving Repr, DecidableEq

/-- The locally defined `Region` type of `home.tsx` (lines 20–25). -/
structure Region where
  latitude : Rat
  longitude : Rat
  latitudeDelta : Rat
  longitudeDelta : Rat
  deriving Repr, DecidableEq

/-- The ids of a station list in order. -/
def stationIds (m : List Station) : List Int :=
  m.map Station.id

/-- JS `Map.prototype.set` keyed by `id`, on the list-of-entries model of a
JS `Map` whose values are the stations themselves: if the key is present the
entry is overwritten in place (its position is kept), otherwise the new
entry is appended.  This is the semantics of `stationMap.set(newStation.id,
newStation)` in `home.tsx` line 97. -/
def mapSet (m : List Station) (v : Station) : List Station :=
  if m.any (fun s => s.id == v.id) then
    m.map (fun s => if s.id == v.id then v else s)
  else
    m ++ [v]

/-- `new Map(prevStations.map(s => [s.id, s]))` of `home.tsx` line 96: the
`Map` constructor runs `set` on each pair in order, starting empty. -/
def stationMapOf (l : List Station) : List Station :=
  l.foldl mapSet []

/-- The merge of `home.tsx` lines 95–99: build a `Map` from the previous
stations keyed by id, `set` every incoming station into it, and return
`Array.from(stationMap.values())`. -/
def mergeStations (prevStations data : List Station) : List Station :=
  data.foldl mapSet (stationMapOf prevStations)

/-- `m.get k` on the JS-`Map` model: the (first) entry whose id is `k`. -/
def lookupStation (m : List Station) (k : Int) : Option Station :=
  m.find? (fun s => s.id == k)

/-- The last station of `data` carrying id `k`, i.e. the record that wins
an id collision when a batch is `set` into a `Map` left to right. -/
def findLastStation (data : List Station) (k : Int) : Option Station :=
  data.reverse.find? (fun s => s.id == k)

theorem mem_stationIds {m : List Station} {k : Int} :
    k ∈ stationIds m ↔ ∃ s ∈ m, s.id = k := by
  simp [stationIds]

theorem any_id_eq_true {m : List Station} {v : Station} :
    m.any (fun s => s.id == v.id) = true ↔ v.id ∈ stationIds m := by
  constructor
  · intro h
    rcases List.any_eq_true.mp h with ⟨s, hs, hbeq⟩
    exact mem_stationIds.mpr ⟨s, hs, by simpa using hbeq⟩
  · intro h
    rcases mem_stationIds.mp h with ⟨s, hs, hsid⟩
    exact List.any_eq_true.mpr ⟨s, hs, by simpa using hsid⟩

theorem find?_overwrite_eq (m : List Station) (v : Station)
    (hmem : v.id ∈ stationIds m) :
    (m.map (fun s => if s.id == v.id then v else s)).find? (fun s => s.id == v.id)
      = some v := by
  induction m with
  | nil => exact absurd hmem (by simp [stationIds])
  | cons h t ih =>
    rw [List.map_cons]
    by_cases hh : h.id = v.id
    · have h1 : (if (h.id == v.id) = true then v else h) = v := by simp [hh]
      rw [h1, List.find?_cons_of_pos _ (by simp)]
    · have h1 : (if (h.id == v.id) = true then v else h) = h := by simp [hh]
      rw [h1, List.find?_cons_of_neg _ (by simp [hh])]
      apply ih
      rcases mem_stationIds.mp hmem with ⟨s, hs, hsid⟩
      rcases List.mem_cons.mp hs with hs | hs
      · exact absurd (hs ▸ hsid) hh
      · exact mem_stationIds.mpr ⟨s, hs, hsid⟩

theorem find?_overwrite_ne (m : List Station) (v : Station) (k : Int)
    (hk : k ≠ v.id) :
    (m.map (fun s => if s.id == v.id then v else s)).find? (fun s => s.id == k)
      = m.find? (fun s => s.id == k) := by
  induction m with
  | nil => rfl
  | cons h t ih =>
    rw [List.map_cons]
    by_cases hh : h.id = v.id
    · have hvk : ¬ ((v.id == k) = true) := by
        simp only [beq_iff_eq]
        exact fun he => hk he.symm
      have hhk : ¬ ((h.id == k) = true) := by
        simp only [beq_iff_eq, hh]
        exact fun he => hk he.symm
      have h1 : (if (h.id == v.id) = true then v else h) = v := by simp [hh]
      rw [h1, List.find?_cons_of_neg _ (by exact hvk),
        List.find?_cons_of_neg _ (by exact hhk), ih]
    · have h1 : (if (h.id == v.id) = true then v else h) = h := by simp [hh]
      rw [h1]
      by_cases hk2 : h.id = k
      · rw [List.find?_cons_of_pos _ (by simp [hk2]),
          List.find?_cons_of_pos _ (by simp [hk2])]
      · rw [List.find?_cons_of_neg _ (by simp [hk2]),
          List.find?_cons_of_neg _ (by simp [hk2]), ih]

theorem find?_eq_none_of_not_mem (m : List Station) (k : Int)
    (h : k ∉ stationIds m) :
    m.find? (fun s => s.id == k) = none := by
  rw [List.find?_eq_none]
  intro s hs hbeq
  exact h (mem_stationIds.mpr ⟨s, hs, by simpa using hbeq⟩)

theorem lookupStation_mapSet (m : List Station) (v : Station) (k : Int) :
    lookupStation (mapSet m v) k
      = if k = v.id then some v else lookupStation m k := by
  unfold lookupStation mapSet
  by_cases hmem : v.id ∈ stationIds m
  · rw [if_pos (any_id_eq_true.mpr hmem)]
    by_cases hk : k = v.id
    · subst hk
      rw [if_pos rfl]
      exact find?_overwrite_eq m v hmem
    · rw [if_neg hk]
      exact find?_overwrite_ne m v k hk
  · rw [if_neg (by simpa using (fun h => hmem (any_id_eq_true.mp h)))]
    rw [List.find?_append]
    by_cases hk : k = v.id
    · subst hk
      rw [find?_eq_none_of_not_mem m v.id hmem, if_pos rfl,
        List.find?_cons_of_pos _ (by simp), Option.none_or]
    · have hvk : ¬ ((v.id == k) = true) := by
        simp only [beq_iff_eq]
        exact fun he => hk he.symm
      rw [if_neg hk, List.find?_cons_of_neg _ (by exact hvk), List.find?_nil,
        Option.or_none]

theorem findLastStation_cons (b : Station) (data : List Station) (k : Int) :
    findLastStation (b :: data) k
      = (findLastStation data k).or (if k = b.id then some b else none) := by
  unfold findLastStation
  rw [List.reverse_cons, List.find?_append]
  congr 1
  by_cases hk : k = b.id
  · rw [if_pos hk, List.find?_cons_of_pos _ (by simp [hk])]
  · have hbk : ¬ ((b.id == k) = true) := by
      simp only [beq_iff_eq]
      exact fun he => hk he.symm
    rw [if_neg hk, List.find?_cons_of_neg _ (by exact hbk), List.find?_nil]

theorem lookupStation_foldl (data m : List Station) (k : Int) :
    lookupStation (data.foldl mapSet m) k
      = (findLastStation data k).or (lookupStation m k) := by
  induction data generalizing m with
  | nil => simp [findLastStation, lookupStation]
  | cons b B ih =>
    rw [List.foldl_cons, ih (mapSet m b), lookupStation_mapSet, findLastStation_cons]
    cases hf : findLastStation B k <;> by_cases hk : k = b.id <;> simp [hk]

theorem stationIds_mapSet_of_mem (m : List Station) (v : Station)
    (hmem : v.id ∈ stationIds m) :
    stationIds (mapSet m v) = stationIds m := by
  unfold mapSet
  rw [if_pos (any_id_eq_true.mpr hmem)]
  unfold stationIds
  rw [List.map_map]
  apply List.map_congr_left
  intro s _
  by_cases hs : s.id = v.id
  · simp [Function.comp, hs]
  · simp [Function.comp, hs]

theorem stationIds_mapSet_of_not_mem (m : List Station) (v : Station)
    (hmem : v.id ∉ stationIds m) :
    stationIds (mapSet m v) = stationIds m ++ [v.id] := by
  unfold mapSet
  rw [if_neg (fun h => hmem (any_id_eq_true.mp h))]
  simp [stationIds]

theorem nodup_stationIds_mapSet (m : List Station) (v : Station)
    (h : (stationIds m).Nodup) : (stationIds (mapSet m v)).Nodup := by
  by_cases hmem : v.id ∈ stationIds m
  · rw [stationIds_mapSet_of_mem m v hmem]
    exact h
  · rw [stationIds_mapSet_of_not_mem m v hmem]
    simp [List.nodup_append, h, hmem]

theorem nodup_stationIds_foldl (data : List Station) (m : List Station)
    (h : (stationIds m).Nodup) : (stationIds (data.foldl mapSet m)).Nodup := by
  induction data generalizing m with
  | nil => exact h
  | cons b B ih => exact ih _ (nodup_stationIds_mapSet m b h)

theorem nodup_stationIds_stationMapOf (l : List Station) :
    (stationIds (stationMapOf l)).Nodup :=
  nodup_stationIds_foldl l [] (by simp [stationIds])

theorem nodup_stationIds_mergeStations (prev data : List Station) :
    (stationIds (mergeStations prev data)).Nodup :=
  nodup_stationIds_foldl data _ (nodup_stationIds_stationMapOf prev)

theorem foldl_mapSet_fresh (l : List Station) (acc : List Station)
    (hdis : ∀ s ∈ l, s.id ∉ stationIds acc)
    (hl : (stationIds l).Nodup) :
    l.foldl mapSet acc = acc ++ l := by
  induction l generalizing acc with
  | nil => simp
  | cons b B ih =>
    have hb : b.id ∉ stationIds acc := hdis b (List.mem_cons_self b B)
    have hstep : mapSet acc b = acc ++ [b] := by
      unfold mapSet
      rw [if_neg (fun h => hb (any_id_eq_true.mp h))]
    have hnodB : (stationIds B).Nodup := by
      simp only [stationIds, List.map_cons, List.nodup_cons] at hl
      exact hl.2
    have hbB : b.id ∉ stationIds B := by
      simp only [stationIds, List.map_cons, List.nodup_cons] at hl
      exact hl.1
    have hdis2 : ∀ s ∈ B, s.id ∉ stationIds (acc ++ [b]) := by
      intro s hsB
      have h1 : s.id ∉ stationIds acc := hdis s (List.mem_cons_of_mem b hsB)
      have h2 : s.id ≠ b.id := by
        intro he
        exact hbB (he ▸ mem_stationIds.mpr ⟨s, hsB, rfl⟩)
      simp only [stationIds, List.map_append, List.map_cons, List.map_nil,
        List.mem_append, List.mem_singleton, not_or] at h1 ⊢
      exact ⟨h1, h2⟩
    rw [List.foldl_cons, hstep, ih (acc ++ [b]) hdis2 hnodB]
    simp

theorem stationMapOf_eq_self (l : List Station)
    (h : (stationIds l).Nodup) : stationMapOf l = l := by
  unfold stationMapOf
  rw [foldl_mapSet_fresh l [] (by simp [stationIds]) h]
  simp

theorem mem_mapSet_of_ne (s : Station) (m : List Station) (v : Station)
    (hs : s ∈ m) (hne : s.id ≠ v.id) : s ∈ mapSet m v := by
  unfold mapSet
  by_cases hc : m.any (fun x => x.id == v.id) = true
  · rw [if_pos hc]
    simpa [hne] using
      List.mem_map_of_mem (fun x => if (x.id == v.id) = true then v else x) hs
  · rw [if_neg hc]
    exact List.mem_append_left _ hs

theorem mem_foldl_mapSet_of_not_mem_ids (s : Station) (data : List Station)
    (m : List Station) (hs : s ∈ m) (hid : s.id ∉ stationIds data) :
    s ∈ data.foldl mapSet m := by
  induction data generalizing m with
  | nil => exact hs
  | cons b B ih =>
    have h1 : s.id ≠ b.id := fun he => hid (by rw [he]; exact List.mem_cons_self _ _)
    have h2 : s.id ∉ stationIds B := fun hm => hid (List.mem_cons_of_mem _ hm)
    exact ih (mapSet m b) (mem_mapSet_of_ne s m b hs h1) h2

/-- C1: the merge performed after a station fetch (`home.tsx` lines 95–99)
inserts or overwrites entries keyed by station id, the incoming record
winning an id collision (the last record of the batch with that id is what
a lookup finds); every station of the current set whose id is absent from
the incoming batch is retained; and the resulting set has at most one
entry per id. -/
theorem mergeStations_insert_overwrite_retain (prev data : List Station)
    (hprev : (stationIds prev).Nodup) :
    (∀ k : Int, lookupStation (mergeStations prev data) k
        = (findLastStation data k).or (lookupStation prev k)) ∧
    (∀ s ∈ prev, s.id ∉ stationIds data → s ∈ mergeStations prev data) ∧
    (stationIds (mergeStations prev data)).Nodup := by
  refine ⟨?_, ?_, nodup_stationIds_mergeStations prev data⟩
  · intro k
    unfold mergeStations
    rw [lookupStation_foldl, stationMapOf_eq_self prev hprev]
  · intro s hs hid
    unfold mergeStations
    rw [stationMapOf_eq_self prev hprev]
    exact mem_foldl_mapSet_of_not_mem_ids s data prev hs hid

/-- A first concrete station for witnesses and counterexamples. -/
def stationA : Station :=
  { id := 1, name := "Total Energies", latitude := 65244/10000, longitude := 33792/10000 }

/-- A second concrete station, distinct id. -/
def stationB : Station :=
  { id := 2, name := "Mobil", latitude := 652/100, longitude := 337/100 }

/-- A refetched record for the station with id 1: same id, new fields. -/
def stationA2 : Station :=
  { id := 1, name := "Total Energies", latitude := 65244/10000, longitude := 33792/10000,
    price := some 650 }

/-- Witness for C1 at a concrete current set and batch. -/
theorem mergeStations_insert_overwrite_retain_witness :
    (∀ k : Int, lookupStation (mergeStations [stationA, stationB] [stationA2]) k
        = (findLastStation [stationA2] k).or (lookupStation [stationA, stationB] k)) ∧
    (∀ s ∈ [stationA, stationB], s.id ∉ stationIds [stationA2]
        → s ∈ mergeStations [stationA, stationB] [stationA2]) ∧
    (stationIds (mergeStations [stationA, stationB] [stationA2])).Nodup :=
  mergeStations_insert_overwrite_retain [stationA, stationB] [stationA2] (by decide)

theorem stationIds_mem_mapSet_self (m : List Station) (v : Station) :
    v.id ∈ stationIds (mapSet m v) := by
  by_cases hmem : v.id ∈ stationIds m
  · rw [stationIds_mapSet_of_mem m v hmem]
    exact hmem
  · rw [stationIds_mapSet_of_not_mem m v hmem]
    exact List.mem_append_right _ (List.mem_singleton.mpr rfl)

theorem stationIds_mapSet_mono (m : List Station) (v : Station) (k : Int)
    (h : k ∈ stationIds m) : k ∈ stationIds (mapSet m v) := by
  by_cases hmem : v.id ∈ stationIds m
  · rw [stationIds_mapSet_of_mem m v hmem]
    exact h
  · rw [stationIds_mapSet_of_not_mem m v hmem]
    exact List.mem_append_left _ h

theorem mem_stationIds_foldl_mono (data : List Station) (m : List Station) (k : Int)
    (h : k ∈ stationIds m) : k ∈ stationIds (data.foldl mapSet m) := by
  induction data generalizing m with
  | nil => exact h
  | cons x B ih => exact ih (mapSet m x) (stationIds_mapSet_mono m x k h)

theorem batch_ids_mem_foldl (data : List Station) (m : List Station) (b : Station)
    (hb : b ∈ data) : b.id ∈ stationIds (data.foldl mapSet m) := by
  induction data generalizing m with
  | nil => cases hb
  | cons x B ih =>
    rcases List.mem_cons.mp hb with rfl | hbB
    · exact mem_stationIds_foldl_mono B (mapSet m b) b.id (stationIds_mem_mapSet_self m b)
    · exact ih (mapSet m x) hbB

theorem findLastStation_eq_none (data : List Station) (k : Int)
    (h : k ∉ stationIds data) : findLastStation data k = none := by
  unfold findLastStation
  rw [List.find?_eq_none]
  intro s hs hbeq
  exact h (mem_stationIds.mpr ⟨s, List.mem_reverse.mp hs, by simpa using hbeq⟩)

theorem findLastStation_exists (data : List Station) (k : Int)
    (h : k ∈ stationIds data) : ∃ v, findLastStation data k = some v := by
  rcases mem_stationIds.mp h with ⟨s, hs, hsid⟩
  apply Option.isSome_iff_exists.mp
  apply List.find?_isSome.mpr
  exact ⟨s, List.mem_reverse.mpr hs, by simp [hsid]⟩

theorem lookupStation_self (m : List Station) (s : Station)
    (hnod : (stationIds m).Nodup) (hs : s ∈ m) :
    lookupStation m s.id = some s := by
  induction m with
  | nil => cases hs
  | cons h t ih =>
    rcases List.mem_cons.mp hs with rfl | hst
    · unfold lookupStation
      rw [List.find?_cons_of_pos _ (by simp)]
    · simp only [stationIds, List.map_cons, List.nodup_cons] at hnod
      have hne : ¬ ((h.id == s.id) = true) := by
        simp only [beq_iff_eq]
        intro he
        exact hnod.1 (he ▸ mem_stationIds.mpr ⟨s, hst, rfl⟩)
      unfold lookupStation
      rw [List.find?_cons_of_neg _ (by exact hne)]
      exact ih hnod.2 hst

theorem foldl_mapSet_of_ids_subset (data : List Station) (m : List Station)
    (hsub : ∀ b ∈ data, b.id ∈ stationIds m) :
    data.foldl mapSet m = m.map (fun s => (findLastStation data s.id).getD s) := by
  induction data generalizing m with
  | nil => simp [findLastStation]
  | cons b B ih =>
    have hb : b.id ∈ stationIds m := hsub b (List.mem_cons_self b B)
    have hms : mapSet m b = m.map (fun s => if (s.id == b.id) = true then b else s) := by
      unfold mapSet
      rw [if_pos (any_id_eq_true.mpr hb)]
    have hsub2 : ∀ x ∈ B, x.id ∈ stationIds (mapSet m b) := by
      intro x hx
      rw [stationIds_mapSet_of_mem m b hb]
      exact hsub x (List.mem_cons_of_mem b hx)
    rw [List.foldl_cons, ih (mapSet m b) hsub2, hms, List.map_map]
    apply List.map_congr_left
    intro s _
    by_cases hsid : s.id = b.id
    · simp only [Function.comp_apply, hsid, beq_self_eq_true, if_true]
      rw [findLastStation_cons]
      cases hfB : findLastStation B b.id <;> simp
    · have hbne : ¬ ((s.id == b.id) = true) := by simp [hsid]
      simp only [Function.comp_apply, if_neg hbne]
      rw [findLastStation_cons, if_neg hsid, Option.or_none]

theorem values_foldl_findLast (data : List Station) (m : List Station) (s : Station)
    (hnod : (stationIds m).Nodup) (hs : s ∈ data.foldl mapSet m)
    (hid : s.id ∈ stationIds data) : findLastStation data s.id = some s := by
  have h1 := lookupStation_foldl data m s.id
  have h2 := lookupStation_self (data.foldl mapSet m) s
    (nodup_stationIds_foldl data m hnod) hs
  rcases findLastStation_exists data s.id hid with ⟨v, hv⟩
  rw [h2, hv] at h1
  have hvs : s = v := Option.some.inj (h1.trans rfl)
  rw [hv, hvs]

/-- C6: the station-set merge of `home.tsx` lines 95–99 is
overwrite-idempotent: applying the same incoming batch a second time to
the already-merged set changes nothing. -/
theorem mergeStations_overwrite_idempotent (prev data : List Station) :
    mergeStations (mergeStations prev data) data = mergeStations prev data := by
  have hnod : (stationIds (mergeStations prev data)).Nodup :=
    nodup_stationIds_mergeStations prev data
  show data.foldl mapSet (stationMapOf (mergeStations prev data))
      = mergeStations prev data
  rw [stationMapOf_eq_self _ hnod]
  have hsub : ∀ b ∈ data, b.id ∈ stationIds (mergeStations prev data) := by
    intro b hb
    exact batch_ids_mem_foldl data (stationMapOf prev) b hb
  rw [foldl_mapSet_of_ids_subset data _ hsub]
  have hcong : (mergeStations prev data).map
      (fun s => (findLastStation data s.id).getD s)
      = (mergeStations prev data).map (fun s => s) := by
    apply List.map_congr_left
    intro s hsM
    by_cases hid : s.id ∈ stationIds data
    · rw [values_foldl_findLast data (stationMapOf prev) s
        (nodup_stationIds_stationMapOf prev) hsM hid]
      rfl
    · rw [findLastStation_eq_none data s.id hid]
      rfl
  rw [hcong, List.map_id']

theorem foldl_mapSet_characterization (data : List Station) (m : List Station)
    (hm : (stationIds m).Nodup) (hd : (stationIds data).Nodup) :
    data.foldl mapSet m
      = m.map (fun s => (findLastStation data s.id).getD s)
        ++ data.filter (fun b => !((stationIds m).contains b.id)) := by
  induction data generalizing m with
  | nil => simp [findLastStation]
  | cons b B ih =>
    have hdB : (stationIds B).Nodup := by
      simp only [stationIds, List.map_cons, List.nodup_cons] at hd
      exact hd.2
    have hbB : b.id ∉ stationIds B := by
      simp only [stationIds, List.map_cons, List.nodup_cons] at hd
      exact hd.1
    rw [List.foldl_cons]
    by_cases hbm : b.id ∈ stationIds m
    · have hms : mapSet m b = m.map (fun s => if (s.id == b.id) = true then b else s) := by
        unfold mapSet
        rw [if_pos (any_id_eq_true.mpr hbm)]
      have hnod2 : (stationIds (mapSet m b)).Nodup := nodup_stationIds_mapSet m b hm
      rw [ih (mapSet m b) hnod2 hdB, stationIds_mapSet_of_mem m b hbm]
      congr 1
      · rw [hms, List.map_map]
        apply List.map_congr_left
        intro s _
        by_cases hsid : s.id = b.id
        · simp only [Function.comp_apply, hsid, beq_self_eq_true, if_true]
          rw [findLastStation_cons]
          cases hfB : findLastStation B b.id <;> simp
        · have hbne : ¬ ((s.id == b.id) = true) := by simp [hsid]
          simp only [Function.comp_apply, if_neg hbne]
          rw [findLastStation_cons, if_neg hsid, Option.or_none]
      · rw [List.filter_cons_of_neg (by simp [hbm])]
    · have hms : mapSet m b = m ++ [b] := by
        unfold mapSet
        rw [if_neg (fun h => hbm (any_id_eq_true.mp h))]
      have hids2 : stationIds (mapSet m b) = stationIds m ++ [b.id] :=
        stationIds_mapSet_of_not_mem m b hbm
      have hnod2 : (stationIds (mapSet m b)).Nodup := nodup_stationIds_mapSet m b hm
      rw [ih (mapSet m b) hnod2 hdB, hids2, hms, List.map_append]
      have hfBb : (findLastStation B b.id).getD b = b := by
        rw [findLastStation_eq_none B b.id hbB]
        rfl
      have hmap : m.map (fun s => (findLastStation B s.id).getD s)
          = m.map (fun s => (findLastStation (b :: B) s.id).getD s) := by
        apply List.map_congr_left
        intro s hsm
        have hsb : s.id ≠ b.id := fun he => hbm (he ▸ mem_stationIds.mpr ⟨s, hsm, rfl⟩)
        rw [findLastStation_cons, if_neg hsb, Option.or_none]
      have hfilter : B.filter (fun x => !((stationIds m ++ [b.id]).contains x.id))
          = B.filter (fun x => !((stationIds m).contains x.id)) := by
        apply List.filter_congr
        intro x hx
        have hxb : x.id ≠ b.id := fun he => hbB (he ▸ mem_stationIds.mpr ⟨x, hx, rfl⟩)
        simp [hxb]
      rw [hfilter, hmap, List.filter_cons_of_pos (by simp [hbm])]
      simp [hfBb, List.append_assoc]

/-- C10: the merge of `home.tsx` lines 95–99 preserves the relative
iteration order of previously known stations — a station overwritten by id
keeps its original position while taking the incoming record's fields —
and batch stations with fresh ids are appended after all retained
stations, in batch order.  (Both lists carry the StationSet invariant of
at most one entry per id.) -/
theorem mergeStations_preserves_order (prev data : List Station)
    (hprev : (stationIds prev).Nodup) (hdata : (stationIds data).Nodup) :
    mergeStations prev data
      = prev.map (fun s => (findLastStation data s.id).getD s)
        ++ data.filter (fun b => !((stationIds prev).contains b.id)) := by
  unfold mergeStations
  rw [stationMapOf_eq_self prev hprev]
  exact foldl_mapSet_characterization data prev hprev hdata

/-- A concrete station with a fresh id, for the order witness. -/
def stationC : Station :=
  { id := 3, name := "Oando", latitude := 61/10, longitude := 35/10 }

/-- Witness for C10 at a concrete current set and batch. -/
theorem mergeStations_preserves_order_witness :
    mergeStations [stationA, stationB] [stationA2, stationC]
      = [stationA, stationB].map
          (fun s => (findLastStation [stationA2, stationC] s.id).getD s)
        ++ [stationA2, stationC].filter
          (fun b => !((stationIds [stationA, stationB]).contains b.id)) :=
  mergeStations_preserves_order [stationA, stationB] [stationA2, stationC]
    (by decide) (by decide)

/-- Outcome of one run of `fetchStationsForRegion` (`home.tsx` lines 89–102):
the station state afterwards, the console error log entries produced, and
any retry fetches issued (the code issues none). -/
structure FetchOutcome where
  stations : List Station
  errorLogs : List String
  retryFetches : List Region
  deriving Repr, DecidableEq

/-- The fetch handler of `home.tsx` lines 89–102, with the network call made
explicit as an `Except` argument: on success the response batch is merged
into the previous stations; on error the message is logged
(`console.error("Error fetching stations:", err.message)`) and nothing else
happens. -/
def fetchStationsForRegion (prevStations : List Station)
    (result : Except String (List Station)) : FetchOutcome :=
  match result with
  | Except.ok data =>
      { stations := mergeStations prevStations data
        errorLogs := []
        retryFetches := [] }
  | Except.error msg =>
      { stations := prevStations
        errorLogs := ["Error fetching stations: " ++ msg]
        retryFetches := [] }

/-- C7: when the backend station fetch fails, the current StationSet is left
exactly as it was — no entry added, removed or modified — the error is only
logged, and no retry fetch is issued. -/
theorem fetchStations_failure_frame (prevStations : List Station) (msg : String) :
    (fetchStationsForRegion prevStations (Except.error msg)).stations = prevStations ∧
    (fetchStationsForRegion prevStations (Except.error msg)).errorLogs
      = ["Error fetching stations: " ++ msg] ∧
    (fetchStationsForRegion prevStations (Except.error msg)).retryFetches = [] :=
  ⟨rfl, rfl, rfl⟩

/-- JS `String.prototype.toLowerCase` on the char-sequence model. -/
def jsToLower (s : List Char) : List Char :=
  s.map Char.toLower

/-- JS `String.prototype.trim` on the char-sequence model: strip leading and
trailing whitespace. -/
def jsTrim (s : List Char) : List Char :=
  ((s.dropWhile Char.isWhitespace).reverse.dropWhile Char.isWhitespace).reverse

/-- JS `String.prototype.includes` on the char-sequence model: contiguous
substring containment. -/
def jsIncludes (hay needle : List Char) : Bool :=
  decide (needle <:+: hay)

/-- The `filteredStations` memo of `home.tsx` lines 61–65:
`if (!filterTerm.trim()) return stations;` then a filter by
case-insensitive substring match of the (untrimmed) term against the
station name. -/
def filteredStations (stations : List Station) (filterTerm : String) : List Station :=
  if (jsTrim filterTerm.data).isEmpty then stations
  else
    let lowercasedFilter := jsToLower filterTerm.data
    stations.filter (fun s => jsIncludes (jsToLower s.name.data) lowercasedFilter)

/-- C8 (counterexample): the claim fails on the whitespace-only term `" "`.
The term is non-empty, yet the filter returns the full station list even
though the station's name does not contain `" "` as a (case-insensitive)
substring: `home.tsx` tests `!filterTerm.trim()`, so a whitespace-only
term takes the identity branch. -/
theorem filteredStations_whitespace_counterexample :
    (" " : String) ≠ "" ∧
    filteredStations [stationB] " " = [stationB] ∧
    jsIncludes (jsToLower stationB.name.data) (jsToLower (" " : String).data) = false := by
  refine ⟨by decide, rfl, by decide⟩

/-- C8 (amended): the station filter is a pure function of the station list
and the term; with a term that is empty or whitespace-only it returns the
full list unchanged in membership and iteration order, and with a term
containing a non-whitespace character it retains exactly the stations
whose lowercased name contains the lowercased (untrimmed) term as a
substring, preserving their relative order. -/
theorem filteredStations_spec (stations : List Station) (filterTerm : String) :
    ((jsTrim filterTerm.data).isEmpty = true →
      filteredStations stations filterTerm = stations) ∧
    ((jsTrim filterTerm.data).isEmpty = false →
      ∀ s : Station, s ∈ filteredStations stations filterTerm ↔
        s ∈ stations ∧
          jsIncludes (jsToLower s.name.data) (jsToLower filterTerm.data) = true) ∧
    (filteredStations stations filterTerm).Sublist stations := by
  refine ⟨?_, ?_, ?_⟩
  · intro h
    unfold filteredStations
    rw [if_pos h]
  · intro h s
    unfold filteredStations
    rw [if_neg (by simp [h])]
    simp [List.mem_filter]
  · unfold filteredStations
    by_cases h : (jsTrim filterTerm.data).isEmpty
    · rw [if_pos h]
    · rw [if_neg h]
      exact List.filter_sublist stations

/-- The four extrema of the route-bounds scan of `home.tsx` lines 223–230
(`minLon`/`maxLon`/`minLat`/`maxLat`; southwest is `(minLon, minLat)`,
northeast `(maxLon, maxLat)`). -/
structure RouteBounds where
  minLon : Rat
  maxLon : Rat
  minLat : Rat
  maxLat : Rat
  deriving Repr, DecidableEq

/-- One iteration of the `coords.forEach` loop of `home.tsx` lines 225–230:
each extremum is updated by an independent comparison against the
coordinate (`c[0]` is longitude, `c[1]` latitude). -/
def boundsStep (b : RouteBounds) (c : Rat × Rat) : RouteBounds :=
  { minLon := if c.1 < b.minLon then c.1 else b.minLon
    maxLon := if c.1 > b.maxLon then c.1 else b.maxLon
    minLat := if c.2 < b.minLat then c.2 else b.minLat
    maxLat := if c.2 > b.maxLat then c.2 else b.maxLat }

/-- The bounds computation of `home.tsx` lines 223–230: all four extrema are
initialised from `coords[0]` (indexing an empty array throws, modelled as
`none`), then the whole list is scanned.  There is no length or
finiteness check in the code. -/
def computeRouteBounds : List (Rat × Rat) → Option RouteBounds
  | [] => none
  | c :: rest => some ((c :: rest).foldl boundsStep
      { minLon := c.1, maxLon := c.1, minLat := c.2, maxLat := c.2 })

theorem boundsStep_minLon (b : RouteBounds) (c : Rat × Rat) :
    (boundsStep b c).minLon = min b.minLon c.1 := by
  unfold boundsStep
  rcases lt_or_ge c.1 b.minLon with h | h
  · rw [if_pos h, min_eq_right h.le]
  · rw [if_neg (not_lt.mpr h), min_eq_left h]

theorem boundsStep_maxLon (b : RouteBounds) (c : Rat × Rat) :
    (boundsStep b c).maxLon = max b.maxLon c.1 := by
  unfold boundsStep
  rcases lt_or_ge b.maxLon c.1 with h | h
  · rw [if_pos h, max_eq_right h.le]
  · rw [if_neg (not_lt.mpr h), max_eq_left h]

theorem boundsStep_minLat (b : RouteBounds) (c : Rat × Rat) :
    (boundsStep b c).minLat = min b.minLat c.2 := by
  unfold boundsStep
  rcases lt_or_ge c.2 b.minLat with h | h
  · rw [if_pos h, min_eq_right h.le]
  · rw [if_neg (not_lt.mpr h), min_eq_left h]

theorem boundsStep_maxLat (b : RouteBounds) (c : Rat × Rat) :
    (boundsStep b c).maxLat = max b.maxLat c.2 := by
  unfold boundsStep
  rcases lt_or_ge b.maxLat c.2 with h | h
  · rw [if_pos h, max_eq_right h.le]
  · rw [if_neg (not_lt.mpr h), max_eq_left h]

theorem foldl_boundsStep_minLon (l : List (Rat × Rat)) (b : RouteBounds) :
    (l.foldl boundsStep b).minLon = l.foldl (fun a c => min a c.1) b.minLon := by
  induction l generalizing b with
  | nil => rfl
  | cons c l ih => rw [List.foldl_cons, List.foldl_cons, ih, boundsStep_minLon]

theorem foldl_boundsStep_maxLon (l : List (Rat × Rat)) (b : RouteBounds) :
    (l.foldl boundsStep b).maxLon = l.foldl (fun a c => max a c.1) b.maxLon := by
  induction l generalizing b with
  | nil => rfl
  | cons c l ih => rw [List.foldl_cons, List.foldl_cons, ih, boundsStep_maxLon]

theorem foldl_boundsStep_minLat (l : List (Rat × Rat)) (b : RouteBounds) :
    (l.foldl boundsStep b).minLat = l.foldl (fun a c => min a c.2) b.minLat := by
  induction l generalizing b with
  | nil => rfl
  | cons c l ih => rw [List.foldl_cons, List.foldl_cons, ih, boundsStep_minLat]

theorem foldl_boundsStep_maxLat (l : List (Rat × Rat)) (b : RouteBounds) :
    (l.foldl boundsStep b).maxLat = l.foldl (fun a c => max a c.2) b.maxLat := by
  induction l generalizing b with
  | nil => rfl
  | cons c l ih => rw [List.foldl_cons, List.foldl_cons, ih, boundsStep_maxLat]

theorem foldl_min_le_init (f : Rat × Rat → Rat) (l : List (Rat × Rat)) (x : Rat) :
    l.foldl (fun a c => min a (f c)) x ≤ x := by
  induction l generalizing x with
  | nil => exact le_refl x
  | cons c l ih => exact le_trans (ih (min x (f c))) (min_le_left x (f c))

theorem foldl_min_le_mem (f : Rat × Rat → Rat) (l : List (Rat × Rat)) (x : Rat)
    (p : Rat × Rat) (hp : p ∈ l) :
    l.foldl (fun a c => min a (f c)) x ≤ f p := by
  induction l generalizing x with
  | nil => cases hp
  | cons c l ih =>
    rcases List.mem_cons.mp hp with rfl | hpl
    · exact le_trans (foldl_min_le_init f l (min x (f p))) (min_le_right x (f p))
    · exact ih (min x (f c)) hpl

theorem foldl_min_attained (f : Rat × Rat → Rat) (l : List (Rat × Rat)) (x : Rat) :
    l.foldl (fun a c => min a (f c)) x = x
      ∨ ∃ p ∈ l, l.foldl (fun a c => min a (f c)) x = f p := by
  induction l generalizing x with
  | nil => exact Or.inl rfl
  | cons c l ih =>
    rw [List.foldl_cons]
    rcases ih (min x (f c)) with h | ⟨p, hp, he⟩
    · rcases min_choice x (f c) with hm | hm
      · exact Or.inl (h.trans hm)
      · exact Or.inr ⟨c, List.mem_cons_self c l, h.trans hm⟩
    · exact Or.inr ⟨p, List.mem_cons_of_mem c hp, he⟩

theorem init_le_foldl_max (f : Rat × Rat → Rat) (l : List (Rat × Rat)) (x : Rat) :
    x ≤ l.foldl (fun a c => max a (f c)) x := by
  induction l generalizing x with
  | nil => exact le_refl x
  | cons c l ih => exact le_trans (le_max_left x (f c)) (ih (max x (f c)))

theorem mem_le_foldl_max (f : Rat × Rat → Rat) (l : List (Rat × Rat)) (x : Rat)
    (p : Rat × Rat) (hp : p ∈ l) :
    f p ≤ l.foldl (fun a c => max a (f c)) x := by
  induction l generalizing x with
  | nil => cases hp
  | cons c l ih =>
    rcases List.mem_cons.mp hp with rfl | hpl
    · exact le_trans (le_max_right x (f p)) (init_le_foldl_max f l (max x (f p)))
    · exact ih (max x (f c)) hpl

theorem foldl_max_attained (f : Rat × Rat → Rat) (l : List (Rat × Rat)) (x : Rat) :
    l.foldl (fun a c => max a (f c)) x = x
      ∨ ∃ p ∈ l, l.foldl (fun a c => max a (f c)) x = f p := by
  induction l generalizing x with
  | nil => exact Or.inl rfl
  | cons c l ih =>
    rw [List.foldl_cons]
    rcases ih (max x (f c)) with h | ⟨p, hp, he⟩
    · rcases max_choice x (f c) with hm | hm
      · exact Or.inl (h.trans hm)
      · exact Or.inr ⟨c, List.mem_cons_self c l, h.trans hm⟩
    · exact Or.inr ⟨p, List.mem_cons_of_mem c hp, he⟩

/-- C3: for a coordinate sequence of length at least 2 the route-bounds
computation of `home.tsx` lines 223–230 yields the componentwise minima and
maxima over all points (lower/upper bound on every point, each extremum
attained), southwest is at most northeast on each axis, and on
`[[0,0],[2,3],[-1,5]]` it yields southwest `(-1, 0)` and northeast
`(2, 5)`. -/
theorem computeRouteBounds_extrema (coords : List (Rat × Rat))
    (h2 : 2 ≤ coords.length) :
    ∃ b, computeRouteBounds coords = some b ∧
      (∀ p ∈ coords, b.minLon ≤ p.1 ∧ p.1 ≤ b.maxLon ∧ b.minLat ≤ p.2 ∧ p.2 ≤ b.maxLat) ∧
      ((∃ p ∈ coords, p.1 = b.minLon) ∧ (∃ p ∈ coords, p.1 = b.maxLon) ∧
       (∃ p ∈ coords, p.2 = b.minLat) ∧ (∃ p ∈ coords, p.2 = b.maxLat)) ∧
      (b.minLon ≤ b.maxLon ∧ b.minLat ≤ b.maxLat) ∧
      computeRouteBounds [((0 : Rat), (0 : Rat)), (2, 3), (-1, 5)]
        = some { minLon := -1, maxLon := 2, minLat := 0, maxLat := 5 } := by
  match coords, h2 with
  | c :: rest, _ =>
    refine ⟨(c :: rest).foldl boundsStep
      { minLon := c.1, maxLon := c.1, minLat := c.2, maxLat := c.2 }, rfl, ?_, ?_, ?_, by decide⟩
    · intro p hp
      refine ⟨?_, ?_, ?_, ?_⟩
      · rw [foldl_boundsStep_minLon]
        exact foldl_min_le_mem Prod.fst (c :: rest) c.1 p hp
      · rw [foldl_boundsStep_maxLon]
        exact mem_le_foldl_max Prod.fst (c :: rest) c.1 p hp
      · rw [foldl_boundsStep_minLat]
        exact foldl_min_le_mem Prod.snd (c :: rest) c.2 p hp
      · rw [foldl_boundsStep_maxLat]
        exact mem_le_foldl_max Prod.snd (c :: rest) c.2 p hp
    · refine ⟨?_, ?_, ?_, ?_⟩
      · rw [foldl_boundsStep_minLon]
        rcases foldl_min_attained Prod.fst (c :: rest) c.1 with h | ⟨p, hp, he⟩
        · exact ⟨c, List.mem_cons_self c rest, h.symm⟩
        · exact ⟨p, hp, he.symm⟩
      · rw [foldl_boundsStep_maxLon]
        rcases foldl_max_attained Prod.fst (c :: rest) c.1 with h | ⟨p, hp, he⟩
        · exact ⟨c, List.mem_cons_self c rest, h.symm⟩
        · exact ⟨p, hp, he.symm⟩
      · rw [foldl_boundsStep_minLat]
        rcases foldl_min_attained Prod.snd (c :: rest) c.2 with h | ⟨p, hp, he⟩
        · exact ⟨c, List.mem_cons_self c rest, h.symm⟩
        · exact ⟨p, hp, he.symm⟩
      · rw [foldl_boundsStep_maxLat]
        rcases foldl_max_attained Prod.snd (c :: rest) c.2 with h | ⟨p, hp, he⟩
        · exact ⟨c, List.mem_cons_self c rest, h.symm⟩
        · exact ⟨p, hp, he.symm⟩
    · constructor
      · have h1 : ((c :: rest).foldl boundsStep
            { minLon := c.1, maxLon := c.1, minLat := c.2, maxLat := c.2 }).minLon ≤ c.1 := by
          rw [foldl_boundsStep_minLon]
          exact foldl_min_le_mem Prod.fst (c :: rest) c.1 c (List.mem_cons_self c rest)
        have h2 : c.1 ≤ ((c :: rest).foldl boundsStep
            { minLon := c.1, maxLon := c.1, minLat := c.2, maxLat := c.2 }).maxLon := by
          rw [foldl_boundsStep_maxLon]
          exact mem_le_foldl_max Prod.fst (c :: rest) c.1 c (List.mem_cons_self c rest)
        exact le_trans h1 h2
      · have h1 : ((c :: rest).foldl boundsStep
            { minLon := c.1, maxLon := c.1, minLat := c.2, maxLat := c.2 }).minLat ≤ c.2 := by
          rw [foldl_boundsStep_minLat]
          exact foldl_min_le_mem Prod.snd (c :: rest) c.2 c (List.mem_cons_self c rest)
        have h2 : c.2 ≤ ((c :: rest).foldl boundsStep
            { minLon := c.1, maxLon := c.1, minLat := c.2, maxLat := c.2 }).maxLat := by
          rw [foldl_boundsStep_maxLat]
          exact mem_le_foldl_max Prod.snd (c :: rest) c.2 c (List.mem_cons_self c rest)
        exact le_trans h1 h2

/-- Witness for C3 at the spec's own example input. -/
theorem computeRouteBounds_extrema_witness :
    ∃ b, computeRouteBounds [((0 : Rat), (0 : Rat)), (2, 3), (-1, 5)] = some b ∧
      (∀ p ∈ [((0 : Rat), (0 : Rat)), (2, 3), (-1, 5)],
        b.minLon ≤ p.1 ∧ p.1 ≤ b.maxLon ∧ b.minLat ≤ p.2 ∧ p.2 ≤ b.maxLat) ∧
      ((∃ p ∈ [((0 : Rat), (0 : Rat)), (2, 3), (-1, 5)], p.1 = b.minLon) ∧
       (∃ p ∈ [((0 : Rat), (0 : Rat)), (2, 3), (-1, 5)], p.1 = b.maxLon) ∧
       (∃ p ∈ [((0 : Rat), (0 : Rat)), (2, 3), (-1, 5)], p.2 = b.minLat) ∧
       (∃ p ∈ [((0 : Rat), (0 : Rat)), (2, 3), (-1, 5)], p.2 = b.maxLat)) ∧
      (b.minLon ≤ b.maxLon ∧ b.minLat ≤ b.maxLat) ∧
      computeRouteBounds [((0 : Rat), (0 : Rat)), (2, 3), (-1, 5)]
        = some { minLon := -1, maxLon := 2, minLat := 0, maxLat := 5 } :=
  computeRouteBounds_extrema [((0 : Rat), (0 : Rat)), (2, 3), (-1, 5)] (by decide)

/-- C4 (counterexample): on the one-element coordinate sequence `[(7, 8)]`
the code raises no error and does produce bounds (the degenerate box at
that point): `home.tsx` lines 223–230 never check the length, so the
claim that an error is raised and no bounds are produced for a 1-element
sequence is false. -/
theorem computeRouteBounds_singleton_counterexample :
    computeRouteBounds [((7 : Rat), (8 : Rat))] ≠ none ∧
    computeRouteBounds [((7 : Rat), (8 : Rat))]
      = some { minLon := 7, maxLon := 7, minLat := 8, maxLat := 8 } := by
  refine ⟨by decide, by decide⟩

/-- C4 (amended): the bounds computation fails only on the empty coordinate
sequence (indexing `coords[0]` throws, an error caught by the caller); a
one-element sequence produces the degenerate bounds equal to that point,
and no finiteness check is performed. -/
theorem computeRouteBounds_none_iff_empty :
    computeRouteBounds ([] : List (Rat × Rat)) = none ∧
    (∀ p : Rat × Rat, computeRouteBounds [p]
        = some { minLon := p.1, maxLon := p.1, minLat := p.2, maxLat := p.2 }) ∧
    (∀ coords : List (Rat × Rat), computeRouteBounds coords = none ↔ coords = []) := by
  refine ⟨rfl, ?_, ?_⟩
  · intro p
    unfold computeRouteBounds
    simp [boundsStep, lt_irrefl]
  · intro coords
    cases coords with
    | nil => simp [computeRouteBounds]
    | cons c rest => simp [computeRouteBounds]


/-- JS `Math.round` on the exact-rational model: floor of `x + 1/2`
(nearest integer, ties up). -/
def jsMathRound (x : Rat) : Int :=
  ⌊x + 1/2⌋

/-- The integer of tenths that `Number.prototype.toFixed(1)` renders for a
non-negative value: the nearest multiple of one tenth, ties up. -/
def tenthsOf (x : Rat) : Int :=
  ⌊x * 10 + 1/2⌋

/-- JS `x.toFixed(1)` for non-negative `x`: one digit after the decimal
point. -/
def toFixed1 (x : Rat) : String :=
  toString ((tenthsOf x).toNat / 10) ++ "." ++ toString ((tenthsOf x).toNat % 10)

/-- `(route.distance / 1000).toFixed(1) + ' km'` of `addStation.tsx`
line 552. -/
def formatRouteDistance (distance : Rat) : String :=
  toFixed1 (distance / 1000) ++ " km"

/-- `Math.round(route.duration / 60) + ' min'` of `addStation.tsx`
line 553. -/
def formatRouteDuration (duration : Rat) : String :=
  toString (jsMathRound (duration / 60)) ++ " min"

/-- C9: distance formatting maps raw meters to kilometers rounded to one
decimal with a " km" suffix and duration formatting maps raw seconds to
minutes rounded to the nearest integer with a " min" suffix; both are
total functions of their rational input.  12345 meters formats as
"12.3 km" and 125 seconds as "2 min", and the rounding used is within
half a unit (half a tenth for the distance digits) of the exact value. -/
theorem format_distance_duration :
    formatRouteDistance 12345 = "12.3 km" ∧
    formatRouteDuration 125 = "2 min" ∧
    (∀ x : Rat, (jsMathRound x : Rat) - x ≤ 1/2 ∧ x - (jsMathRound x : Rat) ≤ 1/2) ∧
    (∀ x : Rat, (tenthsOf x : Rat) / 10 - x ≤ 1/20 ∧ x - (tenthsOf x : Rat) / 10 ≤ 1/20) := by
  refine ⟨?_, ?_, ?_, ?_⟩
  · have ht : tenthsOf ((12345 : Rat) / 1000) = 123 := by
      unfold tenthsOf
      apply Int.floor_eq_iff.mpr
      constructor <;> norm_num
    unfold formatRouteDistance toFixed1
    rw [ht]
    decide
  · have hr : jsMathRound ((125 : Rat) / 60) = 2 := by
      unfold jsMathRound
      apply Int.floor_eq_iff.mpr
      constructor <;> norm_num
    unfold formatRouteDuration
    rw [hr]
    decide
  · intro x
    have h1 : ((⌊x + 1/2⌋ : Int) : Rat) ≤ x + 1/2 := Int.floor_le (x + 1/2)
    have h2 : x + 1/2 < (⌊x + 1/2⌋ : Int) + 1 := Int.lt_floor_add_one (x + 1/2)
    unfold jsMathRound
    constructor <;> linarith
  · intro x
    have h1 : ((⌊x * 10 + 1/2⌋ : Int) : Rat) ≤ x * 10 + 1/2 := Int.floor_le (x * 10 + 1/2)
    have h2 : x * 10 + 1/2 < (⌊x * 10 + 1/2⌋ : Int) + 1 := Int.lt_floor_add_one (x * 10 + 1/2)
    unfold tenthsOf
    constructor <;> linarith

/-- The station-fetch debounce delay passed to `useDebouncedCallback` at
`home.tsx` line 114. -/
def stationFetchDebounceMs : Nat := 400

/-- The location-name debounce delay passed to `useDebouncedCallback` at
`home.tsx` line 115. -/
def locationNameDebounceMs : Nat := 500

/-- Modelled from the spec: the debounce-timer semantics of the external
`use-debounce` library consumed at `home.tsx` lines 114–115 (the library
implementation is not part of this repository).  The input is the pushed
(arrival time, region) pairs in order; each push resets the single pending
timer to fire `delay` after its own arrival; a timer that survives until
the next push (or the end of input) fires the callback with the latest
pushed value.  The output is the list of issued (fire time, region)
fetches. -/
def debounceFires (delay : Nat) : List (Nat × Region) → List (Nat × Region)
  | [] => []
  | [(t, v)] => [(t + delay, v)]
  | (t, v) :: (t2, v2) :: rest =>
    if t2 < t + delay then debounceFires delay ((t2, v2) :: rest)
    else (t + delay, v) :: debounceFires delay ((t2, v2) :: rest)

/-- C2: for every non-empty sequence of pushed regions whose inter-arrival
gaps are all shorter than the debounce window, exactly one fetch is
issued, after the last push, carrying the last region; all intermediate
regions are discarded.  The two windows configured in `home.tsx` are
400 ms (station fetch) and 500 ms (location-name refresh). -/
theorem debounce_single_fetch (delay : Nat) (pushes : List (Nat × Region))
    (tN : Nat) (vN : Region)
    (hlast : pushes.getLast? = some (tN, vN))
    (hgaps : pushes.Chain' (fun p q => q.1 < p.1 + delay)) :
    debounceFires delay pushes = [(tN + delay, vN)] ∧
    stationFetchDebounceMs = 400 ∧ locationNameDebounceMs = 500 := by
  refine ⟨?_, rfl, rfl⟩
  induction pushes with
  | nil => simp at hlast
  | cons x xs ih =>
    cases xs with
    | nil =>
      obtain ⟨t, v⟩ := x
      have hx : t = tN ∧ v = vN := by simpa using hlast
      rw [show debounceFires delay [(t, v)] = [(t + delay, v)] from rfl, hx.1, hx.2]
    | cons y ys =>
      obtain ⟨t, v⟩ := x
      obtain ⟨t2, v2⟩ := y
      have hgap : t2 < t + delay := (List.chain'_cons.mp hgaps).1
      have hlast2 : ((t2, v2) :: ys).getLast? = some (tN, vN) := by
        rwa [List.getLast?_cons_cons] at hlast
      have hgaps2 := (List.chain'_cons.mp hgaps).2
      show debounceFires delay ((t, v) :: (t2, v2) :: ys) = [(tN + delay, vN)]
      rw [show debounceFires delay ((t, v) :: (t2, v2) :: ys)
          = if t2 < t + delay then debounceFires delay ((t2, v2) :: ys)
            else (t + delay, v) :: debounceFires delay ((t2, v2) :: ys) from rfl]
      rw [if_pos hgap]
      exact ih hlast2 hgaps2


/-- A concrete region (the fallback region of `home.tsx`, coarsened to
integer coordinates so that witnesses evaluate). -/
def regionA : Region :=
  { latitude := 6, longitude := 3, latitudeDelta := 1, longitudeDelta := 1 }

/-- A second concrete region. -/
def regionB : Region :=
  { latitude := 7, longitude := 4, latitudeDelta := 1, longitudeDelta := 1 }

/-- Witness for C2: three pushes 0, 100, 300 against a 400 ms window issue
exactly the one fetch (700, last region). -/
theorem debounce_single_fetch_witness :
    debounceFires 400 [(0, regionB), (100, regionB), (300, regionA)] = [(700, regionA)] ∧
    stationFetchDebounceMs = 400 ∧ locationNameDebounceMs = 500 :=
  debounce_single_fetch 400 [(0, regionB), (100, regionB), (300, regionA)] 300 regionA
    (by decide) (by simp [List.chain'_cons])

/-- The `route` state of `home.tsx` line 53: a GeoJSON line geometry plus a
`bounds` field (always set to `null` by the code). -/
structure RouteState where
  geometry : List (Rat × Rat)
  bounds : Option RouteBounds
  deriving Repr, DecidableEq

/-- The slice of `HomeScreen` state that the trip-mode transitions touch,
together with the two fetch channels: regions pushed into the 400 ms
debounced fetch (`debouncedFetch`) and regions fetched by a direct,
immediate call to `fetchStationsForRegion` (the code never makes one from
these handlers). -/
structure HomeScreenState where
  stations : List Station
  currentRegion : Option Region
  isTripModeActive : Bool
  route : Option RouteState
  debouncedFetchPushes : List Region
  immediateFetchCalls : List Region
  deriving Repr, DecidableEq

/-- The success tail of `handleFindTrip` (`home.tsx` lines 217–219):
`setStations([])`, `setRoute({geometry, bounds: null})`,
`setTripModeActive(true)`. -/
def tripRouteSuccess (st : HomeScreenState) (geom : List (Rat × Rat)) : HomeScreenState :=
  { st with
    stations := []
    route := some { geometry := geom, bounds := none }
    isTripModeActive := true }

/-- `cancelTripMode` (`home.tsx` lines 243–253): `setTripModeActive(false)`,
`setRoute(null)`, and when a current region is known, recenter the camera
and call `debouncedFetch(currentRegion)` — the debounced wrapper, not a
direct fetch. -/
def cancelTripMode (st : HomeScreenState) : HomeScreenState :=
  match st.currentRegion with
  | some r =>
      { st with
        isTripModeActive := false
        route := none
        debouncedFetchPushes := st.debouncedFetchPushes ++ [r] }
  | none =>
      { st with isTripModeActive := false, route := none }

/-- A concrete Active-trip-mode state for the C5 counterexample. -/
def homeState0 : HomeScreenState :=
  { stations := []
    currentRegion := some regionA
    isTripModeActive := true
    route := some { geometry := [(0, 0), (1, 1)], bounds := none }
    debouncedFetchPushes := []
    immediateFetchCalls := [] }

/-- C5 (counterexample): exiting trip mode does not invoke the station
fetch immediately.  From a concrete Active state with a known region,
`cancelTripMode` makes no direct fetch call and instead pushes the region
into the 400 ms debounced fetch (`debouncedFetch(currentRegion)`,
`home.tsx` line 251), so the refetch happens only after the debounce
window — contradicting the claim that it is invoked immediately rather
than after the debounce window. -/
theorem cancelTripMode_not_immediate_counterexample :
    (cancelTripMode homeState0).immediateFetchCalls = [] ∧
    (cancelTripMode homeState0).debouncedFetchPushes = [regionA] :=
  ⟨rfl, rfl⟩

/-- C5 (amended): entering Active on a successful route build sets the
StationSet to empty and installs the route overlay; exiting to Idle
clears the route overlay and re-triggers a station fetch for the last
known region through the 400 ms debounced fetch path (the fetch fires
after the debounce window), not through an immediate call. -/
theorem tripMode_transition_effects (st : HomeScreenState)
    (geom : List (Rat × Rat)) (r : Region) (hr : st.currentRegion = some r) :
    ((tripRouteSuccess st geom).stations = [] ∧
     (tripRouteSuccess st geom).route = some { geometry := geom, bounds := none } ∧
     (tripRouteSuccess st geom).isTripModeActive = true) ∧
    ((cancelTripMode st).route = none ∧
     (cancelTripMode st).isTripModeActive = false ∧
     (cancelTripMode st).debouncedFetchPushes = st.debouncedFetchPushes ++ [r] ∧
     (cancelTripMode st).immediateFetchCalls = st.immediateFetchCalls) := by
  refine ⟨⟨rfl, rfl, rfl⟩, ?_⟩
  unfold cancelTripMode
  rw [hr]
  exact ⟨rfl, rfl, rfl, rfl⟩

/-- Witness for C5 (amended) at a concrete state. -/
theorem tripMode_transition_effects_witness :
    ((tripRouteSuccess homeState0 [(0, 0), (1, 1)]).stations = [] ∧
     (tripRouteSuccess homeState0 [(0, 0), (1, 1)]).route
        = some { geometry := [(0, 0), (1, 1)], bounds := none } ∧
     (tripRouteSuccess homeState0 [(0, 0), (1, 1)]).isTripModeActive = true) ∧
    ((cancelTripMode homeState0).route = none ∧
     (cancelTripMode homeState0).isTripModeActive = false ∧
     (cancelTripMode homeState0).debouncedFetchPushes
        = homeState0.debouncedFetchPushes ++ [regionA] ∧
     (cancelTripMode homeState0).immediateFetchCalls = homeState0.immediateFetchCalls) :=
  tripMode_transition_effects homeState0 [(0, 0), (1, 1)] regionA rfl


end FyndFuel
